import Mathlib

/-!
Shallow embedding of `src/zenithview/display.py` (class `Display`), the
visualization/sonification engine of the zenithview repository.

Python floats are modelled as rationals (`ℚ`); Python ints as `ℤ`.
Python dicts are modelled as insertion-ordered association lists with the
update-in-place semantics of CPython (assigning to an existing key keeps
its insertion position and replaces the value).  Fallible operations
(`TypeError`, `ZeroDivisionError`, `ValueError` raised by the Python code)
are modelled with `Except String`.  The transcendental parts of the audio
pipeline (`np.sin`, `scipy.signal.filtfilt`) are not evaluated; instead the
embedding records every datum that feeds them (the sample grid, amplitude,
frequency, the fully rational envelope, the filter parameters) in a
`SineTrace`, which determines the PCM bytes the Python code emits.
-/

/-- Floor of a rational, computed on its normal form (equal to `⌊q⌋`, see
`ratFloor_eq`; spelled out so that the kernel can evaluate it). -/
def ratFloor (q : ℚ) : ℤ := q.num / q.den

/-- Ceiling of a rational (equal to `⌈q⌉`, see `ratCeil_eq`). -/
def ratCeil (q : ℚ) : ℤ := -((-q).num / (-q).den)

/-- Python `int(x)` on a float: truncation toward zero. -/
def pyTrunc (q : ℚ) : ℤ := if 0 ≤ q then ratFloor q else ratCeil q

/-- Python `round(x)`: round half to even (banker's rounding). -/
def pyRound (q : ℚ) : ℤ :=
  if q - ratFloor q < 1/2 then ratFloor q
  else if 1/2 < q - ratFloor q then ratFloor q + 1
  else if ratFloor q % 2 = 0 then ratFloor q else ratFloor q + 1

/-- Python `min(list)`: `none` on the empty list (Python raises ValueError). -/
def pyMin : List ℤ → Option ℤ
  | [] => none
  | x :: xs => some (xs.foldl min x)

/-- Python `max(list)`: `none` on the empty list (Python raises ValueError). -/
def pyMax : List ℤ → Option ℤ
  | [] => none
  | x :: xs => some (xs.foldl max x)

/-- `np.linspace(start, stop, num, endpoint=True)`. -/
def linspaceEnd (start stop : ℚ) (num : ℕ) : List ℚ :=
  match num with
  | 0 => []
  | 1 => [start]
  | n + 2 =>
      (List.range (n + 2)).map fun i : ℕ =>
        start + (i : ℚ) * ((stop - start) / ((n : ℚ) + 1))

/-- `np.linspace(start, stop, num, endpoint=False)`. -/
def linspaceNoEnd (start stop : ℚ) (num : ℕ) : List ℚ :=
  match num with
  | 0 => []
  | n + 1 =>
      (List.range (n + 1)).map fun i : ℕ =>
        start + (i : ℚ) * ((stop - start) / ((n : ℚ) + 1))

/-- Numpy slice assignment `l[start : start + len(vals)] = vals`
(lengths are exact at every use site of the source, see `sinewaveTrace`). -/
def setSlice (l : List ℚ) (start : ℕ) (vals : List ℚ) : List ℚ :=
  l.take start ++ vals ++ l.drop (start + vals.length)

/-- Numpy tail slice assignment `l[start:] = vals` (the source's release
window assignment; lengths are exact there for nonnegative parameters). -/
def setTail (l : List ℚ) (start : ℕ) (vals : List ℚ) : List ℚ :=
  l.take start ++ vals

/-- Python dict lookup `d[k]` / membership `k in d`, on an
insertion-ordered association list. -/
def alistLookup {β : Type} (k : ℤ) : List (ℤ × β) → Option β
  | [] => none
  | (k1, v) :: rest => if k1 = k then some v else alistLookup k rest

/-- Python dict assignment `d[k] = v`: replaces the value in place if the
key exists (keeping its insertion position), else appends. -/
def dictInsert {β : Type} : List (ℤ × β) → ℤ → β → List (ℤ × β)
  | [], k, v => [(k, v)]
  | (k1, v1) :: rest, k, v =>
      if k1 = k then (k1, v) :: rest else (k1, v1) :: dictInsert rest k v

/-- Argument tuple of a `Display.sinewave` invocation
`(duration, frequency, attack, decay, sustain, release, sample_rate, amplitude)`. -/
structure WaveArgs where
  duration : ℚ
  frequency : ℚ
  attack : ℚ
  decay : ℚ
  sustain : ℚ
  releaseT : ℚ
  sample_rate : ℚ
  amplitude : ℚ
deriving DecidableEq, Repr

/-- Everything `Display.sinewave` (display.py lines 386-416) computes before
the transcendental stages: the sample count, the time grid `t`, the sine
parameters, the four envelope window lengths and the envelope itself (which
is fully rational), plus the parameters handed to the Butterworth filter.
Two calls with equal traces behave identically in Python: they produce
identical PCM bytes when the grid is longer than the filter's padding
length (see `sinewaveNumBytes`), and raise the identical `filtfilt`
error otherwise. -/
structure SineTrace where
  num_samples : ℤ
  t : List ℚ
  sineAmp : ℚ
  sineFreq : ℚ
  attack_samples : ℤ
  decay_samples : ℤ
  sustain_samples : ℤ
  release_samples : ℤ
  envelope : List ℚ
  filterRate : ℚ
  filterCutoff : ℚ
deriving DecidableEq, Repr

/-- Embedding of `Display.sinewave` (display.py lines 369-416).
`cutoff` is `self.cutoffFrequency`, passed to `self.filter` at line 416.
The source performs no parameter validation whatsoever. -/
def sinewaveTrace (cutoff duration frequency attack decay sustain release
    sample_rate amplitude : ℚ) : SineTrace :=
  let num_samples : ℤ := pyTrunc (duration * sample_rate)
  let t : List ℚ := linspaceNoEnd 0 duration num_samples.toNat
  let attack_samples : ℤ := min (pyTrunc (attack * sample_rate)) num_samples
  let decay_samples : ℤ :=
    min (pyTrunc (decay * sample_rate)) (num_samples - attack_samples)
  let sustain_samples : ℤ :=
    max 0 (num_samples - attack_samples - decay_samples -
      pyTrunc (release * sample_rate))
  let release_samples : ℤ :=
    min (pyTrunc (release * sample_rate))
      (num_samples - attack_samples - decay_samples - sustain_samples)
  let env0 : List ℚ := List.replicate num_samples.toNat 1
  let env1 : List ℚ :=
    if 0 < attack_samples then
      setSlice env0 0 (linspaceEnd 0 1 attack_samples.toNat)
    else env0
  let env2 : List ℚ :=
    if 0 < decay_samples then
      setSlice env1 attack_samples.toNat (linspaceEnd 1 sustain decay_samples.toNat)
    else env1
  let env3 : List ℚ :=
    if 0 < sustain_samples then
      setSlice env2 (attack_samples.toNat + decay_samples.toNat)
        (List.replicate sustain_samples.toNat sustain)
    else env2
  let env4 : List ℚ :=
    if 0 < release_samples then
      setTail env3 (attack_samples.toNat + decay_samples.toNat + sustain_samples.toNat)
        (linspaceEnd sustain 0 release_samples.toNat)
    else env3
  { num_samples := num_samples
    t := t
    sineAmp := amplitude
    sineFreq := frequency
    attack_samples := attack_samples
    decay_samples := decay_samples
    sustain_samples := sustain_samples
    release_samples := release_samples
    envelope := env4
    filterRate := sample_rate
    filterCutoff := cutoff }

/-- Trace of `sinewave` applied to a recorded argument tuple. -/
def traceOfArgs (cutoff : ℚ) (w : WaveArgs) : SineTrace :=
  sinewaveTrace cutoff w.duration w.frequency w.attack w.decay w.sustain
    w.releaseT w.sample_rate w.amplitude

/-- Length in bytes of the buffer `sinewave` returns, when it returns.
`self.filter` applies `scipy.signal.filtfilt`, whose default padding
(`padlen = 3 * max(len(a), len(b)) = 6` for the first-order Butterworth
coefficient pair from `butter(1, ...)`) raises
`ValueError: The length of the input vector x must be greater than padlen`
unless the input holds strictly more than 6 samples; so for
`int(duration * sample_rate) <= 6` the call raises instead of returning a
buffer (for a negative computed count numpy's `linspace` already raises
earlier; both failures land in the error branch here).  Otherwise
zero-phase filtering returns as many samples as it is given and each
filtered sample packs to exactly two bytes (see `packSamples`): two bytes
per element of the time grid `t`. -/
def sinewaveNumBytes (cutoff duration frequency attack decay sustain release
    sample_rate amplitude : ℚ) : Except String ℕ :=
  if (sinewaveTrace cutoff duration frequency attack decay sustain release
      sample_rate amplitude).t.length ≤ 6 then
    Except.error "ValueError: The length of the input vector x must be greater than padlen, which is 6."
  else
    Except.ok (2 * (sinewaveTrace cutoff duration frequency attack decay sustain
      release sample_rate amplitude).t.length)

/-- A pygame RGB color tuple. -/
abbrev Color := ℤ × ℤ × ℤ

/-- State of the waveform cache `self.preprocessed` plus a ledger of every
`sinewave` invocation (each entry is the argument tuple of one synthesis). -/
structure SoundState where
  table : List (ℤ × WaveArgs)
  synthLog : List WaveArgs
deriving DecidableEq, Repr

/-- State of the surface cache `self.cache`: per-value surface identities
(allocation order numbers), the next fresh identity, and a ledger of the
values for which a `pygame.Surface` was allocated. -/
structure SurfState where
  table : List (ℤ × ℕ)
  nextId : ℕ
  allocLog : List ℤ
deriving DecidableEq, Repr

/-- The lazy waveform-cache path of `Display.update.process` (display.py
lines 240-246) and of `Display.completeUpdate` (lines 530-536): on a hit
the stored buffer is written to the audio stream; on a miss
`self.sinewave(self.soundDuration, e)` is called -- passing ONLY duration
and frequency, so the Python defaults `attack=0.1, decay=0.2, sustain=0.5,
release=0.1, sample_rate=44100, amplitude=32767` apply -- and the result is
stored.  Returns the buffer written (as its argument tuple) and the new
state. -/
def lazyGet (au : SoundState) (soundDuration : ℚ) (e : ℤ) :
    WaveArgs × SoundState :=
  match alistLookup e au.table with
  | some w => (w, au)
  | none =>
      let nw : WaveArgs :=
        { duration := soundDuration, frequency := (e : ℚ), attack := 1/10,
          decay := 1/5, sustain := 1/2, releaseT := 1/10,
          sample_rate := 44100, amplitude := 32767 }
      (nw, { table := dictInsert au.table e nw, synthLog := au.synthLog ++ [nw] })

/-- The surface-cache path of `Display.update` (display.py lines 307-313)
and `Display.completeUpdate` (lines 519-523): on a miss a fresh
`pygame.Surface` is allocated and stored; on a hit the stored surface is
reused (and merely refilled with a color, which is not part of cache
identity).  Returns the surface identity and the new state. -/
def surfGet (su : SurfState) (e : ℤ) : ℕ × SurfState :=
  match alistLookup e su.table with
  | some s => (s, su)
  | none =>
      (su.nextId,
        { table := dictInsert su.table e su.nextId,
          nextId := su.nextId + 1,
          allocLog := su.allocLog ++ [e] })

/-- The entries of the `pendingData` dict built inside `Display.update`:
value-keyed, each holding the blit position and the highlight color. -/
abbrev PendingDict := List (ℤ × ((ℤ × ℤ) × Color))

/-- The bar loop of `Display.update` (display.py lines 304-321 and the
identical lines 327-344): walks `zip(array, self.arraySnapshot)` with a
running horizontal offset `r`; each element's surface is fetched or
allocated and blitted, and every changed pair is entered into `pendingData`
KEYED BY ITS VALUE via Python dict assignment
`pendingData[e] = ((r, h - e), highlightColor)`. -/
def barLoop (tk h : ℤ) (hl : Color) :
    List (ℤ × ℤ) → ℤ → SurfState → PendingDict → SurfState × PendingDict
  | [], _, su, acc => (su, acc)
  | (e, oe) :: rest, r, su, acc =>
      barLoop tk h hl rest (r + tk) (surfGet su e).2
        (if e ≠ oe then dictInsert acc e ((r, h - e), hl) else acc)

/-- The `process` closure of `Display.update` (display.py lines 231-252):
walks the pending entries (already reversed by the caller when
`inverseDelta` is set), blits each highlighted bar, plays its tone when
`sound` is set (through the lazy waveform cache), and repaints
highlight-colored bars with the bar color.  Returns the new sound-cache
state and the values sounded, in order. -/
def processLoop (soundDuration : ℚ) (sound : Bool) :
    List (ℤ × ((ℤ × ℤ) × Color)) → SoundState → SoundState × List ℤ
  | [], au => (au, [])
  | (e, _) :: rest, au =>
      let au1 := if sound then (lazyGet au soundDuration e).2 else au
      let res := processLoop soundDuration sound rest au1
      (res.1, (if sound then [e] else []) ++ res.2)

/-- The element-wise affine rescaling inside `Display.normalize`
(display.py lines 510-512): `round(((x - old_min) / (old_max - old_min)) *
(tmax - tmin) + tmin)` with `tmin = height / 10`, `tmax = height - 12`. -/
def normElem (height mn mx x : ℤ) : ℤ :=
  pyRound ((((x : ℚ) - (mn : ℚ)) / ((mx : ℚ) - (mn : ℚ))) *
    (((height : ℚ) - 12) - ((height : ℚ) / 10)) + ((height : ℚ) / 10))

/-- Embedding of `Display.normalize` (display.py lines 495-512).  Raises
`ValueError` on an empty list (Python `min([])`) and `ZeroDivisionError`
when all elements are equal (`old_max - old_min == 0`). -/
def normalizeOp (height : ℤ) (l : List ℤ) : Except String (List ℤ) :=
  match pyMin l, pyMax l with
  | some mn, some mx =>
      if mx = mn then Except.error "ZeroDivisionError: division by zero"
      else Except.ok (l.map (normElem height mn mx))
  | _, _ => Except.error "ValueError: min() arg is an empty sequence"

/-- The observable session state of one `Display` object.  `dictDeleted`
records that `del self.__dict__` has run (display.py line 584), after which
every attribute other than the re-created `finishTime` and `null` reads as
`None` through the `__getattr__` logging hook (lines 621-622). -/
structure Display where
  null : Bool
  screenOk : Bool
  dictDeleted : Bool
  width : ℤ
  height : ℤ
  updateFactor : ℤ
  it : ℤ
  last_update_time : ℤ
  arraySnapshot : Option (List ℤ)
  lenWarn : Bool
  sonification : Bool
  soundDuration : ℚ
  attack : ℚ
  decay : ℚ
  sustain : ℚ
  releaseTime : ℚ
  sampleRate : ℚ
  amplitude : ℚ
  cutoffFrequency : ℚ
  barColor : Color
  highlightColor : Color
  background : Color
  surf : SurfState
  soundSt : SoundState
  start : ℚ
  finishTime : Option ℚ
deriving DecidableEq, Repr

/-- Observable effects of one `Display.update` call. -/
structure UEffects where
  errorLogged : Bool
  redrew : Bool
  pending : PendingDict
  sounds : List ℤ
deriving DecidableEq, Repr

/-- The effects of an `update` call that only logs an error and returns. -/
def UEffects.errored : UEffects :=
  { errorLogged := true, redrew := false, pending := [], sounds := [] }

/-- Embedding of `Display.update` (display.py lines 193-349).
`currentTime` is `pygame.time.get_ticks()` in milliseconds.  The null guard
(lines 213-215) precedes everything; the first-call snapshot default
(lines 217-218) precedes the screen guard (lines 220-222); the iteration
counter advances by `updateFactor` on every non-rejected call (line 225);
the full redraw runs only when `current_time - self.last_update_time > 100`
(line 254); line 349 stores the (possibly inverted/normalized) array as the
new snapshot on every non-rejected call. -/
def updateOp (d : Display) (currentTime : ℤ) (array : List ℤ)
    (invertArray inverseDelta : Bool) : Except String (Display × UEffects) :=
  if d.null then Except.ok (d, UEffects.errored)
  else
    let d := if d.arraySnapshot.isNone then { d with arraySnapshot := some array } else d
    if ¬ (d.dictDeleted = false ∧ d.screenOk = true) then
      Except.ok (d, UEffects.errored)
    else
      let d := { d with it := d.it + d.updateFactor }
      let d := if (array.length : ℤ) > d.width ∧ d.lenWarn = false then
          { d with lenWarn := true } else d
      if currentTime - d.last_update_time > 100 then
        let array1 := if invertArray then array.reverse else array
        match pyMax array1 with
        | none => Except.error "ValueError: max() arg is an empty sequence"
        | some mx =>
          match (if mx > d.height then normalizeOp d.height array1
                 else Except.ok array1) with
          | Except.error s => Except.error s
          | Except.ok arrN =>
            let tk := pyTrunc ((d.width : ℚ) / (arrN.length : ℚ))
            let d := { d with last_update_time := currentTime }
            let prev := d.arraySnapshot.getD []
            let bl := barLoop tk d.height d.highlightColor (arrN.zip prev) 0 d.surf []
            let entries := if inverseDelta then bl.2.reverse else bl.2
            let pr := processLoop d.soundDuration d.sonification entries d.soundSt
            Except.ok ({ d with surf := bl.1, soundSt := pr.1,
                                arraySnapshot := some arrN },
              { errorLogged := false, redrew := true, pending := bl.2,
                sounds := pr.2 })
      else
        Except.ok ({ d with arraySnapshot := some array },
          { errorLogged := false, redrew := false, pending := [], sounds := [] })

/-- A sequence of `update(array)` calls at given tick times (with
`invertArray = inverseDelta = False`, as every caller in the repository
uses), collecting the per-call effects. -/
def updateSeq (d : Display) : List (ℤ × List ℤ) →
    Except String (Display × List UEffects)
  | [] => Except.ok (d, [])
  | (tm, arr) :: rest =>
      match updateOp d tm arr false false with
      | Except.error s => Except.error s
      | Except.ok (d1, eff) =>
          match updateSeq d1 rest with
          | Except.error s => Except.error s
          | Except.ok (d2, effs) => Except.ok (d2, eff :: effs)

/-- The redraw schedule the throttle of `Display.update` produces: given
the stored `last_update_time` and the tick times of successive calls, a
call redraws exactly when its tick exceeds the last executed redraw's tick
by strictly more than 100. -/
def throttlePred (last : ℤ) : List ℤ → List Bool
  | [] => []
  | tm :: rest =>
      decide (tm - last > 100) :: throttlePred (if tm - last > 100 then tm else last) rest

/-- Observable effects of one `Display.completeUpdate` call: the first
(green, sounded) pass's blits, the tones played, and the second (repaint)
pass's blits, each as `(value, position)` in visit order. -/
structure CUEffects where
  greenBlits : List (ℤ × (ℤ × ℤ))
  sounds : List ℤ
  whiteBlits : List (ℤ × (ℤ × ℤ))
deriving DecidableEq, Repr

/-- First loop of `Display.completeUpdate` (display.py lines 518-538):
`for e in array`, fetch or allocate the surface, fill it green, blit at
`(r, height - e)`, play the element's tone when sonification is on
(through the lazy waveform cache), advance `r` by the thickness. -/
def cuFirst (son : Bool) (sd : ℚ) (tk h : ℤ) :
    List ℤ → ℤ → SoundState → SurfState →
    SoundState × SurfState × List (ℤ × (ℤ × ℤ)) × List ℤ
  | [], _, au, su => (au, su, [], [])
  | e :: rest, r, au, su =>
      let su1 := (surfGet su e).2
      let au1 := if son then (lazyGet au sd e).2 else au
      let res := cuFirst son sd tk h rest (r + tk) au1 su1
      (res.1, res.2.1, (e, (r, h - e)) :: res.2.2.1,
        (if son then [e] else []) ++ res.2.2.2)

/-- Second loop of `Display.completeUpdate` (display.py lines 540-554):
again `for e in array` -- the SAME forward iteration, not a reversed one --
refilling each surface white and blitting it; no sound. -/
def cuSecond (tk h : ℤ) : List ℤ → ℤ → SurfState → SurfState × List (ℤ × (ℤ × ℤ))
  | [], _, su => (su, [])
  | e :: rest, r, su =>
      let su1 := (surfGet su e).2
      let res := cuSecond tk h rest (r + tk) su1
      (res.1, (e, (r, h - e)) :: res.2)

/-- Embedding of `Display.completeUpdate` (display.py lines 514-554).
Takes no clock input: the pass is unconditional and bypasses the 100ms
throttle entirely.  Raises `ZeroDivisionError` on an empty array (the
thickness computation `int(self.width / len(array))`). -/
def completeUpdateOp (d : Display) (array : List ℤ) :
    Except String (Display × CUEffects) :=
  if array.length = 0 then Except.error "ZeroDivisionError: division by zero"
  else
    let tk := pyTrunc ((d.width : ℚ) / (array.length : ℚ))
    let f := cuFirst d.sonification d.soundDuration tk d.height array 0 d.soundSt d.surf
    let s := cuSecond tk d.height array 0 f.2.1
    Except.ok ({ d with soundSt := f.1, surf := s.1 },
      { greenBlits := f.2.2.1, sounds := f.2.2.2, whiteBlits := s.2 })

/-- Observable effects of one `Display.release` call. -/
structure REffects where
  errorLogged : Bool
  didFinalRender : Bool
  didTeardown : Bool
  cu : Option CUEffects
deriving DecidableEq, Repr

/-- Embedding of `Display.release` (display.py lines 557-590).  The screen
guard (lines 567-569) reads `self.screen`, which after `del self.__dict__`
resolves to `None` through `__getattr__`, so a released display fails the
`isinstance` test, logs an error and returns.  With a last array and
`update` not `False`, `completeUpdate` runs (lines 571-573).  With `hold`,
the display blocks on the event loop (`self.hold()`, not modelled: it only
waits for a QUIT event), then tears down: `del self.__dict__`, then
`finishTime` and `null` are written into the fresh attribute dict
(lines 584-588); `now` is `time.perf_counter()` at teardown. -/
def releaseOp (d : Display) (lastArray : Option (List ℤ)) (upd hold : Bool)
    (now : ℚ) : Except String (Display × REffects) :=
  if ¬ (d.dictDeleted = false ∧ d.screenOk = true) then
    Except.ok (d, { errorLogged := true, didFinalRender := false,
                    didTeardown := false, cu := none })
  else
    match (match lastArray, upd with
           | some arr, true =>
               (completeUpdateOp d arr).map
                 (fun p : Display × CUEffects => (p.1, some p.2))
           | _, _ => Except.ok (d, none)) with
    | Except.error s => Except.error s
    | Except.ok (d1, cuEff) =>
        if hold then
          Except.ok ({ d1 with dictDeleted := true, null := true,
                               finishTime := some (now - d1.start) },
            { errorLogged := false, didFinalRender := cuEff.isSome,
              didTeardown := true, cu := cuEff })
        else
          Except.ok (d1, { errorLogged := false, didFinalRender := cuEff.isSome,
                           didTeardown := false, cu := cuEff })

/-- Embedding of `Display.thickness` (display.py lines 458-468):
`int(self.width / arrayLen)`.  After teardown `self.width` reads `None`,
so the division raises `TypeError`; `arrayLen = 0` raises
`ZeroDivisionError`. -/
def thicknessOp (d : Display) (arrayLen : ℤ) : Except String ℤ :=
  if d.dictDeleted then
    Except.error "TypeError: unsupported operand types for /: NoneType and int"
  else if arrayLen = 0 then Except.error "ZeroDivisionError: division by zero"
  else Except.ok (pyTrunc ((d.width : ℚ) / (arrayLen : ℚ)))

/-- Embedding of `Display.preprocess` (display.py lines 420-456): for EVERY
element of the array -- with no cache-membership test -- `self.sinewave` is
invoked with the full constructor configuration and the result is stored
under the element's value, overwriting any previous entry.  After teardown
`self.preprocessed` reads `None` and the subscript assignment raises
`TypeError`.  Returns the resulting mapping (the function's return value)
inside the new display. -/
def preprocessOp (d : Display) (array : List ℤ) : Except String Display :=
  if d.dictDeleted then
    Except.error "TypeError: NoneType object does not support item assignment"
  else
    let newSt := array.foldl (fun (au : SoundState) (e : ℤ) =>
      let nw : WaveArgs :=
        { duration := d.soundDuration, frequency := (e : ℚ),
          attack := d.attack, decay := d.decay, sustain := d.sustain,
          releaseT := d.releaseTime, sample_rate := d.sampleRate,
          amplitude := d.amplitude }
      { table := dictInsert au.table e nw, synthLog := au.synthLog ++ [nw] })
      d.soundSt
    Except.ok { d with soundSt := newSt }

/-- The keys of a Python dict, in insertion order. -/
def alistKeys {β : Type} (d : List (ℤ × β)) : List ℤ := d.map Prod.fst

/-- The horizontal offset `r` at which the LAST changed pair of
`zip(array, arraySnapshot)` carrying the value `k` sits, when the walk
starts at offset `r0` and advances by `tk` per element -- the position that
survives in `pendingData[k]` after all the value-keyed overwrites. -/
def lastChangedPos (tk k : ℤ) : List (ℤ × ℤ) → ℤ → Option ℤ
  | [], _ => none
  | (e, oe) :: rest, r0 =>
      match lastChangedPos tk k rest (r0 + tk) with
      | some p => some p
      | none => if e = k ∧ e ≠ oe then some r0 else none

/-- The per-call effects of a successful `updateSeq` run (empty list if the
run raised). -/
def updateSeqEffs (d : Display) (calls : List (ℤ × List ℤ)) : List UEffects :=
  match updateSeq d calls with
  | Except.ok p => p.2
  | Except.error _ => []

/-- Number of `sinewave` invocations recorded after a `preprocess` call
(zero if the call raised). -/
def preprocessLogLen (d : Display) (array : List ℤ) : ℕ :=
  match preprocessOp d array with
  | Except.ok d1 => d1.soundSt.synthLog.length
  | Except.error _ => 0

/-- An empty waveform-cache state (a freshly constructed display's
`self.preprocessed`). -/
def au0 : SoundState := { table := [], synthLog := [] }

/-- An empty surface-cache state (a freshly constructed display's
`self.cache`). -/
def su0 : SurfState := { table := [], nextId := 0, allocLog := [] }

/-- A freshly constructed `Display(width=500, height=500,
sonification=True)` with all other constructor arguments at their
defaults, as embedded session state. -/
def sampleDisplay : Display :=
  { null := false, screenOk := true, dictDeleted := false,
    width := 500, height := 500, updateFactor := 1, it := 0,
    last_update_time := 0, arraySnapshot := none, lenWarn := false,
    sonification := true, soundDuration := 1/10, attack := 1/10,
    decay := 1/5, sustain := 1/2, releaseTime := 1/10,
    sampleRate := 44100, amplitude := 32767, cutoffFrequency := 5000,
    barColor := (255, 255, 255), highlightColor := (255, 0, 0),
    background := (0, 0, 0), surf := su0, soundSt := au0,
    start := 0, finishTime := none }

/-- The sample display after a completed `release(lastArray=[5])` (final
render, hold, teardown at `time.perf_counter() = 10`). -/
def releasedSample : Display :=
  match releaseOp sampleDisplay (some [5]) true true 10 with
  | Except.ok p => p.1
  | Except.error _ => sampleDisplay

/-- The argument tuple `preprocess` records for value 100 on a display
constructed with `soundDuration = 7/44100` (seven samples at the default
rate, strictly more than `filtfilt`'s padding length 6, so synthesis
really completes) and `attack = 11/100` (all other audio configuration at
the Python defaults). -/
def preArgsElevenHundredths : WaveArgs :=
  { duration := 7/44100, frequency := 100, attack := 11/100, decay := 1/5,
    sustain := 1/2, releaseT := 1/10, sample_rate := 44100, amplitude := 32767 }

/-- The sample display reconfigured with `soundDuration = 7/44100` and
`attack = 11/100` (a constructor configuration that differs from the
synthesizer's built-in defaults). -/
def configuredDisplay : Display :=
  { sampleDisplay with soundDuration := 7/44100, attack := 11/100 }

deriving instance DecidableEq for Except

theorem ratFloor_eq (q : ℚ) : ratFloor q = ⌊q⌋ := Rat.floor_def.symm

theorem ratCeil_eq (q : ℚ) : ratCeil q = ⌈q⌉ := by
  unfold ratCeil
  rw [show (-q).num / ((-q).den : ℤ) = ratFloor (-q) from rfl, ratFloor_eq,
    Int.floor_neg, neg_neg]

theorem pyTrunc_eq (q : ℚ) : pyTrunc q = if 0 ≤ q then ⌊q⌋ else ⌈q⌉ := by
  unfold pyTrunc
  rw [ratFloor_eq, ratCeil_eq]

theorem pyTrunc_nonneg {q : ℚ} (h : 0 ≤ q) : 0 ≤ pyTrunc q := by
  rw [pyTrunc_eq, if_pos h]
  exact Int.floor_nonneg.mpr h

theorem pyTrunc_nonpos {q : ℚ} (h : q ≤ 0) : pyTrunc q ≤ 0 := by
  rw [pyTrunc_eq]
  split_ifs with h0
  · have : q = 0 := le_antisymm h h0
    simp [this]
  · exact Int.ceil_le.mpr (by exact_mod_cast h)

theorem pyRound_eq (q : ℚ) : pyRound q =
    (if q - ⌊q⌋ < 1/2 then ⌊q⌋
     else if 1/2 < q - ⌊q⌋ then ⌊q⌋ + 1
     else if ⌊q⌋ % 2 = 0 then ⌊q⌋ else ⌊q⌋ + 1) := by
  unfold pyRound
  rw [ratFloor_eq]

theorem pyRound_floor_le (q : ℚ) : ⌊q⌋ ≤ pyRound q := by
  rw [pyRound_eq]
  split_ifs <;> omega

theorem pyRound_le_floor_succ (q : ℚ) : pyRound q ≤ ⌊q⌋ + 1 := by
  rw [pyRound_eq]
  split_ifs <;> omega

theorem pyRound_mono {a b : ℚ} (h : a ≤ b) : pyRound a ≤ pyRound b := by
  have hf : ⌊a⌋ ≤ ⌊b⌋ := Int.floor_le_floor h
  by_cases heq : ⌊a⌋ = ⌊b⌋
  · have hfr : a - (⌊a⌋ : ℚ) ≤ b - (⌊b⌋ : ℚ) := by
      rw [← heq]; linarith
    rw [pyRound_eq, pyRound_eq, ← heq]
    split_ifs <;> first | omega | linarith
  · have h1 := pyRound_le_floor_succ a
    have h2 := pyRound_floor_le b
    omega

theorem pyRound_intCast (n : ℤ) : pyRound (n : ℚ) = n := by
  rw [pyRound_eq]
  rw [Int.floor_intCast]
  norm_num

theorem linspaceEnd_length (a b : ℚ) (n : ℕ) : (linspaceEnd a b n).length = n := by
  unfold linspaceEnd
  match n with
  | 0 => rfl
  | 1 => rfl
  | m + 2 => rw [List.length_map, List.length_range]

theorem linspaceNoEnd_length (a b : ℚ) (n : ℕ) : (linspaceNoEnd a b n).length = n := by
  unfold linspaceNoEnd
  match n with
  | 0 => rfl
  | m + 1 => rw [List.length_map, List.length_range]

theorem alistLookup_dictInsert_self {β : Type} (d : List (ℤ × β)) (k : ℤ) (v : β) :
    alistLookup k (dictInsert d k v) = some v := by
  induction d with
  | nil => simp [dictInsert, alistLookup]
  | cons p rest ih =>
      obtain ⟨k1, v1⟩ := p
      by_cases hk : k1 = k
      · simp [dictInsert, hk, alistLookup]
      · simp [dictInsert, hk, alistLookup, ih]

theorem alistLookup_dictInsert_ne {β : Type} (d : List (ℤ × β)) (k k1 : ℤ) (v : β)
    (h : k1 ≠ k) : alistLookup k1 (dictInsert d k v) = alistLookup k1 d := by
  have h2 : ¬ (k = k1) := fun hh => h hh.symm
  induction d with
  | nil => simp [dictInsert, alistLookup, h2]
  | cons p rest ih =>
      obtain ⟨k2, v2⟩ := p
      by_cases hk : k2 = k
      · subst hk
        simp [dictInsert, alistLookup, h2]
      · simp [dictInsert, hk, alistLookup, ih]

theorem mem_alistKeys_dictInsert {β : Type} (d : List (ℤ × β)) (k k1 : ℤ) (v : β) :
    k1 ∈ alistKeys (dictInsert d k v) ↔ k1 ∈ alistKeys d ∨ k1 = k := by
  induction d with
  | nil => simp [dictInsert, alistKeys]
  | cons p rest ih =>
      obtain ⟨k2, v2⟩ := p
      by_cases hk : k2 = k
      · subst hk
        simp [dictInsert, alistKeys]
        tauto
      · simp [dictInsert, hk, alistKeys] at ih ⊢
        tauto

theorem alistKeys_dictInsert {β : Type} (d : List (ℤ × β)) (k : ℤ) (v : β) :
    alistKeys (dictInsert d k v) =
      if k ∈ alistKeys d then alistKeys d else alistKeys d ++ [k] := by
  induction d with
  | nil => simp [dictInsert, alistKeys]
  | cons p rest ih =>
      obtain ⟨k2, v2⟩ := p
      by_cases hk : k2 = k
      · subst hk
        simp [dictInsert, alistKeys]
      · have hne : ¬ (k = k2) := fun hh => hk hh.symm
        simp only [dictInsert, if_neg hk]
        rw [show alistKeys ((k2, v2) :: dictInsert rest k v) =
              k2 :: alistKeys (dictInsert rest k v) from rfl,
            show alistKeys ((k2, v2) :: rest) = k2 :: alistKeys rest from rfl, ih]
        by_cases hm : k ∈ alistKeys rest
        · rw [if_pos hm, if_pos (by simp [List.mem_cons, hm])]
        · rw [if_neg hm, if_neg (by simp [List.mem_cons, hm, hne]), List.cons_append]

theorem alistKeys_dictInsert_nodup {β : Type} (d : List (ℤ × β)) (k : ℤ) (v : β)
    (h : (alistKeys d).Nodup) : (alistKeys (dictInsert d k v)).Nodup := by
  rw [alistKeys_dictInsert]
  split_ifs with hm
  · exact h
  · rw [List.nodup_append]
    refine ⟨h, List.nodup_singleton k, ?_⟩
    intro x hx hxk
    simp at hxk
    subst hxk
    exact hm hx

theorem alistLookup_eq_none_iff {β : Type} (d : List (ℤ × β)) (k : ℤ) :
    alistLookup k d = none ↔ k ∉ alistKeys d := by
  induction d with
  | nil => simp [alistLookup, alistKeys]
  | cons p rest ih =>
      obtain ⟨k2, v2⟩ := p
      rw [show alistKeys ((k2, v2) :: rest) = k2 :: alistKeys rest from rfl]
      by_cases hk : k2 = k
      · subst hk
        simp [alistLookup]
      · have hne : ¬ (k = k2) := fun hh => hk hh.symm
        rw [show alistLookup k ((k2, v2) :: rest) = alistLookup k rest by
              simp [alistLookup, hk],
            ih]
        simp [List.mem_cons, hne]

theorem foldl_min_le_init (xs : List ℤ) (a : ℤ) : xs.foldl min a ≤ a := by
  induction xs generalizing a with
  | nil => simp
  | cons y ys ih => exact le_trans (ih (min a y)) (min_le_left a y)

theorem foldl_min_le_mem (xs : List ℤ) (a x : ℤ) (hx : x ∈ xs) : xs.foldl min a ≤ x := by
  induction xs generalizing a with
  | nil => cases hx
  | cons y ys ih =>
      rcases List.mem_cons.mp hx with h | h
      · subst h
        exact le_trans (foldl_min_le_init ys (min a x)) (min_le_right a x)
      · exact ih (min a y) h

theorem foldl_min_mem (xs : List ℤ) (a : ℤ) : xs.foldl min a = a ∨ xs.foldl min a ∈ xs := by
  induction xs generalizing a with
  | nil => left; rfl
  | cons y ys ih =>
      rcases ih (min a y) with h | h
      · rcases min_cases a y with ⟨hm, _⟩ | ⟨hm, _⟩
        · left
          rw [List.foldl_cons, h, hm]
        · right
          rw [List.foldl_cons, h, hm]
          exact List.mem_cons_self y ys
      · right
        rw [List.foldl_cons]
        exact List.mem_cons_of_mem y h

theorem foldl_max_init_le (xs : List ℤ) (a : ℤ) : a ≤ xs.foldl max a := by
  induction xs generalizing a with
  | nil => simp
  | cons y ys ih => exact le_trans (le_max_left a y) (ih (max a y))

theorem foldl_max_mem_le (xs : List ℤ) (a x : ℤ) (hx : x ∈ xs) : x ≤ xs.foldl max a := by
  induction xs generalizing a with
  | nil => cases hx
  | cons y ys ih =>
      rcases List.mem_cons.mp hx with h | h
      · subst h
        exact le_trans (le_max_right a x) (foldl_max_init_le ys (max a x))
      · exact ih (max a y) h

theorem foldl_max_mem (xs : List ℤ) (a : ℤ) : xs.foldl max a = a ∨ xs.foldl max a ∈ xs := by
  induction xs generalizing a with
  | nil => left; rfl
  | cons y ys ih =>
      rcases ih (max a y) with h | h
      · rcases max_cases a y with ⟨hm, _⟩ | ⟨hm, _⟩
        · left
          rw [List.foldl_cons, h, hm]
        · right
          rw [List.foldl_cons, h, hm]
          exact List.mem_cons_self y ys
      · right
        rw [List.foldl_cons]
        exact List.mem_cons_of_mem y h

theorem pyMin_le (l : List ℤ) (mn : ℤ) (h : pyMin l = some mn) :
    ∀ x ∈ l, mn ≤ x := by
  match l with
  | [] => cases h
  | x0 :: xs =>
      simp [pyMin] at h
      intro x hx
      rcases List.mem_cons.mp hx with hh | hh
      · subst hh
        rw [← h]
        exact foldl_min_le_init xs x
      · rw [← h]
        exact foldl_min_le_mem xs x0 x hh

theorem pyMin_mem (l : List ℤ) (mn : ℤ) (h : pyMin l = some mn) : mn ∈ l := by
  match l with
  | [] => cases h
  | x0 :: xs =>
      simp [pyMin] at h
      rcases foldl_min_mem xs x0 with hh | hh
      · rw [← h, hh]; exact List.mem_cons_self x0 xs
      · rw [← h]; exact List.mem_cons_of_mem x0 hh

theorem pyMax_ge (l : List ℤ) (mx : ℤ) (h : pyMax l = some mx) :
    ∀ x ∈ l, x ≤ mx := by
  match l with
  | [] => cases h
  | x0 :: xs =>
      simp [pyMax] at h
      intro x hx
      rcases List.mem_cons.mp hx with hh | hh
      · subst hh
        rw [← h]
        exact foldl_max_init_le xs x
      · rw [← h]
        exact foldl_max_mem_le xs x0 x hh

theorem pyMax_mem (l : List ℤ) (mx : ℤ) (h : pyMax l = some mx) : mx ∈ l := by
  match l with
  | [] => cases h
  | x0 :: xs =>
      simp [pyMax] at h
      rcases foldl_max_mem xs x0 with hh | hh
      · rw [← h, hh]; exact List.mem_cons_self x0 xs
      · rw [← h]; exact List.mem_cons_of_mem x0 hh

theorem barLoop_lookup (tk h : ℤ) (hl : Color) (pairs : List (ℤ × ℤ)) (r0 : ℤ)
    (su : SurfState) (acc : PendingDict) (k : ℤ) :
    alistLookup k (barLoop tk h hl pairs r0 su acc).2 =
      match lastChangedPos tk k pairs r0 with
      | some p => some ((p, h - k), hl)
      | none => alistLookup k acc := by
  induction pairs generalizing r0 su acc with
  | nil => simp [barLoop, lastChangedPos]
  | cons pr rest ih =>
      obtain ⟨e, oe⟩ := pr
      rw [show barLoop tk h hl ((e, oe) :: rest) r0 su acc =
            barLoop tk h hl rest (r0 + tk) (surfGet su e).2
              (if e ≠ oe then dictInsert acc e ((r0, h - e), hl) else acc) from rfl,
          ih]
      rw [show lastChangedPos tk k ((e, oe) :: rest) r0 =
            (match lastChangedPos tk k rest (r0 + tk) with
             | some p => some p
             | none => if e = k ∧ e ≠ oe then some r0 else none) from rfl]
      cases hrest : lastChangedPos tk k rest (r0 + tk) with
      | some p => rfl
      | none =>
          dsimp only
          by_cases hc : e = k ∧ e ≠ oe
          · obtain ⟨hek, hch⟩ := hc
            subst hek
            rw [if_pos hch, if_pos (show e = e ∧ e ≠ oe from ⟨rfl, hch⟩)]
            exact alistLookup_dictInsert_self acc e ((r0, h - e), hl)
          · rw [if_neg hc]
            by_cases hch : e ≠ oe
            · have hek : ¬ (e = k) := fun hh => hc ⟨hh, hch⟩
              rw [if_pos hch, alistLookup_dictInsert_ne _ _ _ _
                (fun hh : k = e => hek hh.symm)]
            · rw [if_neg hch]

theorem barLoop_keys_nodup (tk h : ℤ) (hl : Color) (pairs : List (ℤ × ℤ)) (r0 : ℤ)
    (su : SurfState) (acc : PendingDict) (hacc : (alistKeys acc).Nodup) :
    (alistKeys (barLoop tk h hl pairs r0 su acc).2).Nodup := by
  induction pairs generalizing r0 su acc with
  | nil => simpa [barLoop] using hacc
  | cons pr rest ih =>
      obtain ⟨e, oe⟩ := pr
      rw [show barLoop tk h hl ((e, oe) :: rest) r0 su acc =
            barLoop tk h hl rest (r0 + tk) (surfGet su e).2
              (if e ≠ oe then dictInsert acc e ((r0, h - e), hl) else acc) from rfl]
      apply ih
      split_ifs with hch
      · exact alistKeys_dictInsert_nodup acc e _ hacc
      · exact hacc

theorem barLoop_mem_keys (tk h : ℤ) (hl : Color) (pairs : List (ℤ × ℤ)) (r0 : ℤ)
    (su : SurfState) (acc : PendingDict) (k : ℤ) :
    k ∈ alistKeys (barLoop tk h hl pairs r0 su acc).2 ↔
      k ∈ alistKeys acc ∨ ∃ p ∈ pairs, p.1 = k ∧ p.1 ≠ p.2 := by
  induction pairs generalizing r0 su acc with
  | nil => simp [barLoop]
  | cons pr rest ih =>
      obtain ⟨e, oe⟩ := pr
      rw [show barLoop tk h hl ((e, oe) :: rest) r0 su acc =
            barLoop tk h hl rest (r0 + tk) (surfGet su e).2
              (if e ≠ oe then dictInsert acc e ((r0, h - e), hl) else acc) from rfl,
          ih]
      by_cases hch : e ≠ oe
      · rw [if_pos hch]
        rw [show (k ∈ alistKeys (dictInsert acc e ((r0, h - e), hl))) ↔
              (k ∈ alistKeys acc ∨ k = e) from mem_alistKeys_dictInsert _ _ _ _]
        constructor
        · rintro (⟨hm | hke⟩ | ⟨p, hp, h1, h2⟩)
          · exact Or.inl hm
          · exact Or.inr ⟨(e, oe), List.mem_cons_self _ _, by simp [hke.symm], by simpa using hch⟩
          · exact Or.inr ⟨p, List.mem_cons_of_mem _ hp, h1, h2⟩
        · rintro (hm | ⟨p, hp, h1, h2⟩)
          · exact Or.inl (Or.inl hm)
          · rcases List.mem_cons.mp hp with hh | hh
            · subst hh
              exact Or.inl (Or.inr h1.symm)
            · exact Or.inr ⟨p, hh, h1, h2⟩
      · rw [if_neg hch]
        push_neg at hch
        constructor
        · rintro (hm | ⟨p, hp, h1, h2⟩)
          · exact Or.inl hm
          · exact Or.inr ⟨p, List.mem_cons_of_mem _ hp, h1, h2⟩
        · rintro (hm | ⟨p, hp, h1, h2⟩)
          · exact Or.inl hm
          · rcases List.mem_cons.mp hp with hh | hh
            · subst hh
              exact absurd hch h2
            · exact Or.inr ⟨p, hh, h1, h2⟩

theorem processLoop_sounds (sd : ℚ) (sound : Bool)
    (entries : List (ℤ × ((ℤ × ℤ) × Color))) (au : SoundState) :
    (processLoop sd sound entries au).2 =
      if sound then entries.map Prod.fst else [] := by
  induction entries generalizing au with
  | nil => cases sound <;> simp [processLoop]
  | cons p rest ih =>
      obtain ⟨e, pc⟩ := p
      cases sound <;> simp [processLoop, ih]

theorem cuFirst_blits (son : Bool) (sd : ℚ) (tk h : ℤ) (arr : List ℤ) (r0 : ℤ)
    (au : SoundState) (su : SurfState) :
    (cuFirst son sd tk h arr r0 au su).2.2.1.map Prod.fst = arr := by
  induction arr generalizing r0 au su with
  | nil => simp [cuFirst]
  | cons e rest ih => simp [cuFirst, ih]

theorem cuFirst_sounds (son : Bool) (sd : ℚ) (tk h : ℤ) (arr : List ℤ) (r0 : ℤ)
    (au : SoundState) (su : SurfState) :
    (cuFirst son sd tk h arr r0 au su).2.2.2 = if son then arr else [] := by
  induction arr generalizing r0 au su with
  | nil => cases son <;> simp [cuFirst]
  | cons e rest ih => cases son <;> simp [cuFirst, ih]

theorem cuSecond_blits (tk h : ℤ) (arr : List ℤ) (r0 : ℤ) (su : SurfState) :
    (cuSecond tk h arr r0 su).2.map Prod.fst = arr := by
  induction arr generalizing r0 su with
  | nil => simp [cuSecond]
  | cons e rest ih => simp [cuSecond, ih]

theorem updateOp_step (d : Display) (tm : ℤ) (arr : List ℤ) (ia idd : Bool)
    (h1 : d.null = false) (h2 : d.screenOk = true) (h3 : d.dictDeleted = false)
    (d2 : Display) (eff : UEffects)
    (hok : updateOp d tm arr ia idd = Except.ok (d2, eff)) :
    eff.redrew = decide (tm - d.last_update_time > 100) ∧
    eff.errorLogged = false ∧
    d2.it = d.it + d.updateFactor ∧
    d2.null = false ∧ d2.screenOk = true ∧ d2.dictDeleted = false ∧
    d2.updateFactor = d.updateFactor ∧
    d2.last_update_time =
      (if tm - d.last_update_time > 100 then tm else d.last_update_time) ∧
    (eff.redrew = false → eff.pending = [] ∧ eff.sounds = []) := by
  unfold updateOp at hok
  rw [h1] at hok
  by_cases hsnap : d.arraySnapshot.isNone <;>
    simp only [hsnap, Bool.false_eq_true, if_false, if_true] at hok <;>
    rw [h2, h3] at hok <;>
    simp only [eq_self_iff_true, and_self, not_true, if_false] at hok <;>
    by_cases hlen : ((arr.length : ℤ) > d.width ∧ d.lenWarn = false) <;>
      simp only [hlen, if_true, if_false, and_self] at hok
  all_goals
    by_cases hth : tm - d.last_update_time > 100
    case pos =>
      simp only [hth, if_true] at hok
      cases hmax : pyMax (if ia = true then arr.reverse else arr) with
      | none =>
          rw [hmax] at hok
          exact Except.noConfusion hok
      | some mx =>
          rw [hmax] at hok
          (try dsimp only at hok)
          cases hnorm : (if mx > d.height then
              normalizeOp d.height (if ia = true then arr.reverse else arr)
            else Except.ok (if ia = true then arr.reverse else arr)) with
          | error s2 =>
              rw [hnorm] at hok
              exact Except.noConfusion hok
          | ok arrN =>
              rw [hnorm] at hok
              (try dsimp only at hok)
              rw [Except.ok.injEq, Prod.mk.injEq] at hok
              obtain ⟨hd2, heff⟩ := hok
              subst hd2
              subst heff
              simp [hth, h1]
    case neg =>
      simp only [hth, if_false] at hok
      rw [Except.ok.injEq, Prod.mk.injEq] at hok
      obtain ⟨hd2, heff⟩ := hok
      subst hd2
      subst heff
      simp [hth, h1]

/-- C3 (amended): over any sequence of `update` calls on a live session
(not released, screen initialized), the full redraw executes exactly when
the call's tick exceeds the last executed redraw's tick by STRICTLY more
than 100ms (the source tests `current_time - self.last_update_time > 100`,
so a call arriving at exactly 100ms elapsed is still throttled); every
call, throttled or not, advances the iteration counter by `updateFactor`,
and a throttled call performs no rendering (no pending highlights, no
sounds) and logs no error. -/
theorem updateSeq_schedule (d : Display) (calls : List (ℤ × List ℤ))
    (h1 : d.null = false) (h2 : d.screenOk = true) (h3 : d.dictDeleted = false)
    (d2 : Display) (effs : List UEffects)
    (hok : updateSeq d calls = Except.ok (d2, effs)) :
    effs.map UEffects.redrew = throttlePred d.last_update_time (calls.map Prod.fst) ∧
    d2.it = d.it + calls.length * d.updateFactor ∧
    ∀ eff ∈ effs, eff.errorLogged = false ∧
      (eff.redrew = false → eff.pending = [] ∧ eff.sounds = []) := by
  induction calls generalizing d d2 effs with
  | nil =>
      unfold updateSeq at hok
      rw [Except.ok.injEq, Prod.mk.injEq] at hok
      obtain ⟨hd2, heffs⟩ := hok
      subst hd2
      subst heffs
      simp [throttlePred]
  | cons c rest ih =>
      obtain ⟨tm, arr⟩ := c
      unfold updateSeq at hok
      cases hstep : updateOp d tm arr false false with
      | error s =>
          rw [hstep] at hok
          exact Except.noConfusion hok
      | ok p =>
          obtain ⟨d1, eff⟩ := p
          rw [hstep] at hok
          dsimp only at hok
          cases hrest : updateSeq d1 rest with
          | error s =>
              rw [hrest] at hok
              exact Except.noConfusion hok
          | ok p2 =>
              obtain ⟨d2x, effs2⟩ := p2
              rw [hrest] at hok
              dsimp only at hok
              rw [Except.ok.injEq, Prod.mk.injEq] at hok
              obtain ⟨hd2, heffs⟩ := hok
              subst hd2
              subst heffs
              obtain ⟨hr, herr, hit, hn, hsc, hdd, huf, hlast, hnp⟩ :=
                updateOp_step d tm arr false false h1 h2 h3 d1 eff hstep
              obtain ⟨hsched, hitr, hprop⟩ := ih d1 hn hsc hdd d2x effs2 hrest
              refine ⟨?_, ?_, ?_⟩
              · rw [hlast] at hsched
                rw [List.map_cons, List.map_cons, hr,
                  show throttlePred d.last_update_time
                      (tm :: List.map Prod.fst rest) =
                    decide (tm - d.last_update_time > 100) ::
                      throttlePred
                        (if tm - d.last_update_time > 100 then tm
                         else d.last_update_time)
                        (List.map Prod.fst rest) from rfl,
                  hsched]
              · rw [hitr, hit, huf, List.length_cons]
                push_cast
                ring
              · intro eff2 hmem
                rcases List.mem_cons.mp hmem with hh | hh
                · subst hh
                  exact ⟨herr, hnp⟩
                · exact hprop eff2 hh

theorem normElem_lower (height mn mx x : ℤ) (hlt : mn < mx) (hmem1 : mn ≤ x)
    (hh : 14 ≤ height) :
    pyRound ((height : ℚ) / 10) ≤ normElem height mn mx x := by
  unfold normElem
  apply pyRound_mono
  have hq0 : (0 : ℚ) ≤ ((x : ℚ) - (mn : ℚ)) / ((mx : ℚ) - (mn : ℚ)) := by
    apply div_nonneg
    · have : (mn : ℚ) ≤ (x : ℚ) := by exact_mod_cast hmem1
      linarith
    · have : (mn : ℚ) < (mx : ℚ) := by exact_mod_cast hlt
      linarith
  have hs0 : (0 : ℚ) ≤ ((height : ℚ) - 12) - (height : ℚ) / 10 := by
    have : (14 : ℚ) ≤ (height : ℚ) := by exact_mod_cast hh
    linarith
  nlinarith [mul_nonneg hq0 hs0]

theorem normElem_upper (height mn mx x : ℤ) (hlt : mn < mx) (hmem2 : x ≤ mx)
    (hh : 14 ≤ height) :
    normElem height mn mx x ≤ height - 12 := by
  have key : normElem height mn mx x ≤ pyRound ((height : ℚ) - 12) := by
    unfold normElem
    apply pyRound_mono
    have hden : (0 : ℚ) < (mx : ℚ) - (mn : ℚ) := by
      have : (mn : ℚ) < (mx : ℚ) := by exact_mod_cast hlt
      linarith
    have hq1 : ((x : ℚ) - (mn : ℚ)) / ((mx : ℚ) - (mn : ℚ)) ≤ 1 := by
      rw [div_le_one hden]
      have : (x : ℚ) ≤ (mx : ℚ) := by exact_mod_cast hmem2
      linarith
    have hq0up := mul_le_of_le_one_left
      (show (0 : ℚ) ≤ ((height : ℚ) - 12) - (height : ℚ) / 10 by
        have : (14 : ℚ) ≤ (height : ℚ) := by exact_mod_cast hh
        linarith) hq1
    linarith
  have : pyRound ((height : ℚ) - 12) = height - 12 := by
    rw [show ((height : ℚ) - 12) = ((height - 12 : ℤ) : ℚ) by push_cast; ring,
      pyRound_intCast]
  omega

theorem normElem_mono (height mn mx x y : ℤ) (hlt : mn < mx) (hh : 14 ≤ height)
    (hxy : x ≤ y) : normElem height mn mx x ≤ normElem height mn mx y := by
  unfold normElem
  apply pyRound_mono
  have hden : (0 : ℚ) < (mx : ℚ) - (mn : ℚ) := by
    have : (mn : ℚ) < (mx : ℚ) := by exact_mod_cast hlt
    linarith
  have hdiv : ((x : ℚ) - (mn : ℚ)) / ((mx : ℚ) - (mn : ℚ)) ≤
      ((y : ℚ) - (mn : ℚ)) / ((mx : ℚ) - (mn : ℚ)) := by
    have hxy2 : (x : ℚ) - (mn : ℚ) ≤ (y : ℚ) - (mn : ℚ) := by
      have : (x : ℚ) ≤ (y : ℚ) := by exact_mod_cast hxy
      linarith
    exact (div_le_div_iff_of_pos_right hden).mpr hxy2
  have hs0 : (0 : ℚ) ≤ ((height : ℚ) - 12) - (height : ℚ) / 10 := by
    have : (14 : ℚ) ≤ (height : ℚ) := by exact_mod_cast hh
    linarith
  nlinarith [mul_le_mul_of_nonneg_right hdiv hs0]

theorem normalizeOp_ok (height : ℤ) (l : List ℤ) (mn mx : ℤ)
    (hmn : pyMin l = some mn) (hmx : pyMax l = some mx) (hne : mx ≠ mn) :
    normalizeOp height l = Except.ok (l.map (normElem height mn mx)) := by
  unfold normalizeOp
  rw [hmn, hmx]
  dsimp only
  rw [if_neg hne]

theorem sinewaveTrace_t_length (cutoff duration frequency attack decay sustain release
    sample_rate amplitude : ℚ) :
    (sinewaveTrace cutoff duration frequency attack decay sustain release
      sample_rate amplitude).t.length = (pyTrunc (duration * sample_rate)).toNat := by
  unfold sinewaveTrace
  exact linspaceNoEnd_length _ _ _

theorem foldlStep_len (w : ℤ → WaveArgs) : ∀ (arr : List ℤ) (au : SoundState),
    (arr.foldl
        (fun a e =>
          { table := dictInsert a.table e (w e),
            synthLog := a.synthLog ++ [w e] : SoundState })
        au).synthLog.length =
      au.synthLog.length + arr.length := by
  intro arr
  induction arr with
  | nil => intro au; rfl
  | cons e rest ih =>
      intro au
      rw [List.foldl_cons, ih]
      simp
      omega

theorem preprocessOp_synthLog (d : Display) (arr : List ℤ) (d1 : Display)
    (hok : preprocessOp d arr = Except.ok d1) :
    d1.soundSt.synthLog.length = d.soundSt.synthLog.length + arr.length := by
  unfold preprocessOp at hok
  split_ifs at hok with hd
  rw [Except.ok.injEq] at hok
  subst hok
  dsimp only
  exact foldlStep_len
      (fun e =>
        { duration := d.soundDuration, frequency := (e : ℚ),
          attack := d.attack, decay := d.decay, sustain := d.sustain,
          releaseT := d.releaseTime, sample_rate := d.sampleRate,
          amplitude := d.amplitude })
      arr d.soundSt

theorem completeUpdateOp_spec (d : Display) (arr : List ℤ) (hne : arr ≠ []) :
    ∃ d2 cu, completeUpdateOp d arr = Except.ok (d2, cu) ∧
      cu.greenBlits.map Prod.fst = arr ∧ cu.whiteBlits.map Prod.fst = arr ∧
      cu.sounds = (if d.sonification then arr else []) := by
  have hlen : ¬ (arr.length = 0) := fun h0 => hne (List.length_eq_zero.mp h0)
  unfold completeUpdateOp
  rw [if_neg hlen]
  refine ⟨_, _, rfl, ?_, ?_, ?_⟩
  · exact cuFirst_blits _ _ _ _ _ _ _ _
  · exact cuSecond_blits _ _ _ _ _
  · exact cuFirst_sounds _ _ _ _ _ _ _ _

set_option allowUnsafeReducibility true

section

attribute [local semireducible] Rat.add Rat.sub Rat.mul Rat.inv

/-- C1 (amended): after a `release()` call that completed teardown
(`del self.__dict__`, `null = True`), a subsequent `update` and a second
`release` each log an error and return without effect and without raising,
and the second `release` performs no additional teardown.  (The original
claim's "every subsequent public call" fails: `thickness`/`preprocess`
raise `TypeError` after teardown, see the counterexample.) -/
theorem release_terminal_guard (d : Display) (h1 : d.null = true)
    (h3 : d.dictDeleted = true) (tm : ℤ) (arr : List ℤ) (ia idd : Bool)
    (la : Option (List ℤ)) (u ho : Bool) (now : ℚ) :
    updateOp d tm arr ia idd = Except.ok (d, UEffects.errored) ∧
    releaseOp d la u ho now = Except.ok
      (d, { errorLogged := true, didFinalRender := false,
            didTeardown := false, cu := none }) := by
  constructor
  · unfold updateOp
    rw [h1]
    rfl
  · unfold releaseOp
    rw [h3]
    simp

/-- C1 witness: the concrete released sample session rejects `update` and a
second `release` as logged no-ops. -/
theorem release_terminal_guard_witness :
    updateOp releasedSample 1000 [1] false false =
      Except.ok (releasedSample, UEffects.errored) ∧
    releaseOp releasedSample none true true 20 = Except.ok
      (releasedSample, { errorLogged := true, didFinalRender := false,
                         didTeardown := false, cu := none }) :=
  release_terminal_guard releasedSample (by decide) (by decide)
    1000 [1] false false none true true 20

/-- C1 counterexample: after the completed teardown the public calls
`thickness` and `preprocess` RAISE (`self.width` and `self.preprocessed`
read `None` through `__getattr__`, so `int(None / n)` and `None[e] = ...`
are `TypeError`s) instead of logging an error and returning. -/
theorem release_terminal_guard_cex :
    releasedSample.null = true ∧ releasedSample.dictDeleted = true ∧
    (thicknessOp releasedSample 3).toOption = none ∧
    (preprocessOp releasedSample [5]).toOption = none := by
  refine ⟨by decide, by decide, by decide, by decide⟩

/-- C2 (amended): the highlight step computes `changed = e != oe` per
zipped index, but collects entries into a dict KEYED BY VALUE: the key set
is exactly the set of changed values (no duplicates, `Nodup`), each entry
carries the highlight color and the blit position of the LAST changed
index holding that value (`lastChangedPos`), and when sonification is on
the sounded values are exactly the dict's keys -- so of several changed
indices sharing one value only one is flashed/sounded. -/
theorem pending_value_keyed (cur prev : List ℤ) (h tk : ℤ) (hl : Color)
    (su : SurfState) :
    (alistKeys (barLoop tk h hl (cur.zip prev) 0 su []).2).Nodup ∧
    (∀ k, k ∈ alistKeys (barLoop tk h hl (cur.zip prev) 0 su []).2 ↔
      ∃ p ∈ cur.zip prev, p.1 = k ∧ p.1 ≠ p.2) ∧
    (∀ k, alistLookup k (barLoop tk h hl (cur.zip prev) 0 su []).2 =
      (lastChangedPos tk k (cur.zip prev) 0).map (fun r => ((r, h - k), hl))) ∧
    (∀ sd au, (processLoop sd true (barLoop tk h hl (cur.zip prev) 0 su []).2 au).2 =
      ((barLoop tk h hl (cur.zip prev) 0 su []).2).map Prod.fst) := by
  refine ⟨barLoop_keys_nodup _ _ _ _ _ _ _ (by simp [alistKeys]), ?_, ?_, ?_⟩
  · intro k
    have h2 := barLoop_mem_keys tk h hl (cur.zip prev) 0 su [] k
    simpa [alistKeys] using h2
  · intro k
    rw [barLoop_lookup]
    cases lastChangedPos tk k (cur.zip prev) 0 <;> simp [alistLookup]
  · intro sd au
    rw [processLoop_sounds]
    simp

/-- C2 witness: a concrete instance of the lookup law of the pending
dict. -/
theorem pending_value_keyed_witness :
    alistLookup 3 (barLoop 10 500 (255, 0, 0) ([3, 3].zip [1, 2]) 0 su0 []).2 =
      (lastChangedPos 10 3 ([3, 3].zip [1, 2]) 0).map
        (fun r => ((r, 500 - 3), ((255 : ℤ), (0 : ℤ), (0 : ℤ)))) :=
  (pending_value_keyed [3, 3] [1, 2] 500 10 (255, 0, 0) su0).2.2.1 3

/-- C2 counterexample: previous snapshot `[1, 2]`, current `[3, 3]` -- both
indices changed, both now hold value 3.  `pendingData` has a single entry
(not one per index), at the second index's position `(10, 497)`; index 0's
position `(0, 497)` is never flashed. -/
theorem pending_value_keyed_cex :
    (barLoop 10 500 (255, 0, 0) ([3, 3].zip [1, 2]) 0 su0 []).2 =
      [(3, ((10, 497), (255, 0, 0)))] ∧
    (([3, 3].zip [1, 2]).filter (fun p => decide (p.1 ≠ p.2))).length = 2 ∧
    ((0 : ℤ), (497 : ℤ)) ∉
      ((barLoop 10 500 (255, 0, 0) ([3, 3].zip [1, 2]) 0 su0 []).2).map
        (fun p => p.2.1) := by
  refine ⟨by decide, by decide, by decide⟩

/-- C3 witness: on the fresh sample display, calls at ticks 150 and 250
produce the schedule the throttle predicate predicts. -/
theorem updateSeq_schedule_witness :
    (updateSeqEffs sampleDisplay [(150, [5]), (250, [7])]).map UEffects.redrew =
      throttlePred sampleDisplay.last_update_time [150, 250] := by
  cases hE : updateSeq sampleDisplay [(150, [5]), (250, [7])] with
  | error s =>
      have hne : (updateSeq sampleDisplay [(150, [5]), (250, [7])]).toOption ≠ none := by
        decide
      rw [hE] at hne
      simp [Except.toOption] at hne
  | ok p =>
      obtain ⟨d2, effs⟩ := p
      have h := (updateSeq_schedule sampleDisplay [(150, [5]), (250, [7])]
        rfl rfl rfl d2 effs hE).1
      rw [show updateSeqEffs sampleDisplay [(150, [5]), (250, [7])] = effs by
        unfold updateSeqEffs
        rw [hE]]
      simpa using h

/-- C3 counterexample: a first redraw at tick 150, then a call at tick 250
-- exactly 100ms later, so "at least 100ms" has elapsed -- is throttled
(the source requires STRICTLY more than 100). -/
theorem updateSeq_schedule_cex :
    (updateSeqEffs sampleDisplay [(150, [5]), (250, [5])]).map UEffects.redrew =
      [true, false] ∧
    (250 : ℤ) - 150 ≥ 100 := by
  refine ⟨by decide, by decide⟩

/-- C5 (amended): `sinewave` performs no parameter validation: the
synthesis trace is computed by the same formulas for every frequency (a
non-positive frequency silently yields an ordinary waveform, only the
recorded sine frequency differs), and a non-positive sample rate merely
yields a non-positive derived sample count downstream -- never an explicit
invalid-parameter rejection. -/
theorem sinewave_no_validation :
    (∀ cutoff duration f g attack decay sustain release
        sample_rate amplitude : ℚ,
      sinewaveTrace cutoff duration f attack decay sustain release
          sample_rate amplitude =
        { sinewaveTrace cutoff duration g attack decay sustain release
            sample_rate amplitude with sineFreq := f }) ∧
    (∀ cutoff duration frequency attack decay sustain release
        sample_rate amplitude : ℚ,
      sample_rate ≤ 0 → 0 ≤ duration →
      (sinewaveTrace cutoff duration frequency attack decay sustain release
        sample_rate amplitude).num_samples ≤ 0) := by
  constructor
  · intro cutoff duration f g attack decay sustain release sample_rate amplitude
    rfl
  · intro cutoff duration frequency attack decay sustain release sample_rate
      amplitude hsr hd
    exact pyTrunc_nonpos (mul_nonpos_of_nonneg_of_nonpos hd hsr)

/-- C5 witness: concrete instances of both parts. -/
theorem sinewave_no_validation_witness :
    sinewaveTrace 5000 (1/10) (-5) (1/10) (1/5) (1/2) (1/10) 10 32767 =
      { sinewaveTrace 5000 (1/10) 7 (1/10) (1/5) (1/2) (1/10) 10 32767 with
          sineFreq := -5 } ∧
    (sinewaveTrace 5000 (1/10) 440 (1/10) (1/5) (1/2) (1/10) (-3) 32767).num_samples ≤ 0 :=
  ⟨sinewave_no_validation.1 5000 (1/10) (-5) 7 (1/10) (1/5) (1/2) (1/10) 10 32767,
   sinewave_no_validation.2 5000 (1/10) 440 (1/10) (1/5) (1/2) (1/10) (-3) 32767
     (by norm_num) (by norm_num)⟩

/-- C5 counterexample: `sinewave(0.1, -5)` at sample rate 10 silently
produces an ordinary one-sample waveform trace (grid `[0]`, envelope
`[0]`) instead of rejecting the non-positive frequency with an
invalid-parameter error. -/
theorem sinewave_no_validation_cex :
    ((-5 : ℚ) ≤ 0) ∧
    (sinewaveTrace 5000 (1/10) (-5) (1/10) (1/5) (1/2) (1/10) 10 32767).num_samples = 1 ∧
    (sinewaveTrace 5000 (1/10) (-5) (1/10) (1/5) (1/2) (1/10) 10 32767).t = [0] ∧
    (sinewaveTrace 5000 (1/10) (-5) (1/10) (1/5) (1/2) (1/10) 10 32767).envelope = [0] := by
  refine ⟨by norm_num, by decide, by decide, by decide⟩

/-- C6 (amended): for a NON-CONSTANT list (`min ≠ max` -- a constant list
makes `normalize` raise `ZeroDivisionError`) on a display with
`height ≥ 14` (so the target interval is not inverted; the constructor
only guarantees `height ≥ 10`), `normalize` returns one rounded value per
element, every element lies in `[round(height/10), height - 12]` (rounding
can land half a unit below `height/10` itself), and the mapping preserves
relative order. -/
theorem normalize_range_monotone (height : ℤ) (l : List ℤ) (mn mx : ℤ)
    (hh : 14 ≤ height) (hmn : pyMin l = some mn) (hmx : pyMax l = some mx)
    (hne : mx ≠ mn) (hover : height < mx) :
    normalizeOp height l = Except.ok (l.map (normElem height mn mx)) ∧
    (∀ x ∈ l, pyRound ((height : ℚ) / 10) ≤ normElem height mn mx x ∧
      normElem height mn mx x ≤ height - 12) ∧
    (∀ x ∈ l, ∀ y ∈ l, x ≤ y →
      normElem height mn mx x ≤ normElem height mn mx y) := by
  have hlt : mn < mx := by
    have h1 : mn ≤ mx := pyMin_le l mn hmn mx (pyMax_mem l mx hmx)
    omega
  refine ⟨normalizeOp_ok height l mn mx hmn hmx hne, ?_, ?_⟩
  · intro x hx
    exact ⟨normElem_lower height mn mx x hlt (pyMin_le l mn hmn x hx) hh,
      normElem_upper height mn mx x hlt (pyMax_ge l mx hmx x hx) hh⟩
  · intro x hx y hy hxy
    exact normElem_mono height mn mx x y hlt hh hxy

/-- C6 witness: `height = 500`, values `[600, 601]` (max exceeds height):
the mapping succeeds and the bounds hold at element 600. -/
theorem normalize_range_monotone_witness :
    normalizeOp 500 [600, 601] = Except.ok ([600, 601].map (normElem 500 600 601)) ∧
    (pyRound ((500 : ℚ) / 10) ≤ normElem 500 600 601 600 ∧
      normElem 500 600 601 600 ≤ 500 - 12) := by
  have h := normalize_range_monotone 500 [600, 601] 600 601 (by decide) (by decide)
    (by decide) (by decide) (by decide)
  exact ⟨h.1, h.2.1 600 (by decide)⟩

/-- C6 counterexample: a constant list `[600, 600]` with max above height
raises `ZeroDivisionError` instead of returning a list; at the clamped
minimum `height = 10` the target interval is inverted, `[20, 30]` maps to
`[1, -2]` -- outside `[height/10, height-12] = [1, -2]` (empty) and
order-REVERSING; at `height = 25` element `min` maps to `2 < 25/10`,
breaking the claimed lower bound. -/
theorem normalize_range_monotone_cex :
    (normalizeOp 500 [600, 600]).toOption = none ∧
    normalizeOp 10 [20, 30] = Except.ok [1, -2] ∧
    ((20 : ℤ) ≤ 30 ∧ ¬ ((1 : ℤ) ≤ -2)) ∧
    normalizeOp 25 [30, 100] = Except.ok [2, 13] ∧
    ¬ ((25 : ℚ) / 10 ≤ 2) := by
  refine ⟨by decide, by decide, by decide, by decide, by decide⟩

/-- C7 (amended): the LAZY cache paths are exactly-once: a second
`getOrCreate` on the waveform cache returns the same stored buffer with no
new synthesis and no state change, a second `getOrCreate` on the surface
cache returns the same surface with no new allocation, and a hit never
synthesizes; but bulk `preprocess` is NOT: it re-synthesizes
unconditionally, one `sinewave` call per array ELEMENT (duplicates -- and
repeated `preprocess` calls -- synthesize again per distinct key,
overwriting the entry). -/
theorem cache_exactly_once :
    (∀ au (sd : ℚ) (e : ℤ),
      lazyGet (lazyGet au sd e).2 sd e =
        ((lazyGet au sd e).1, (lazyGet au sd e).2)) ∧
    (∀ su (e : ℤ),
      surfGet (surfGet su e).2 e = ((surfGet su e).1, (surfGet su e).2)) ∧
    (∀ au (sd : ℚ) (e : ℤ), e ∈ alistKeys au.table → (lazyGet au sd e).2 = au) ∧
    (∀ d arr d1, preprocessOp d arr = Except.ok d1 →
      d1.soundSt.synthLog.length = d.soundSt.synthLog.length + arr.length) := by
  refine ⟨?_, ?_, ?_, preprocessOp_synthLog⟩
  · intro au sd e
    unfold lazyGet
    cases h : alistLookup e au.table with
    | some w => simp [h]
    | none =>
        dsimp only
        rw [alistLookup_dictInsert_self]
  · intro su e
    unfold surfGet
    cases h : alistLookup e su.table with
    | some s => simp [h]
    | none =>
        dsimp only
        rw [alistLookup_dictInsert_self]
  · intro au sd e he
    unfold lazyGet
    cases h : alistLookup e au.table with
    | some w => rfl
    | none => exact absurd he ((alistLookup_eq_none_iff _ _).mp h)

/-- C7 witness: a concrete double lookup and a concrete preprocess whose
synthesis count equals the element count. -/
theorem cache_exactly_once_witness :
    lazyGet (lazyGet au0 (1/10) 5).2 (1/10) 5 =
      ((lazyGet au0 (1/10) 5).1, (lazyGet au0 (1/10) 5).2) ∧
    preprocessLogLen sampleDisplay [5, 6] =
      sampleDisplay.soundSt.synthLog.length + 2 := by
  refine ⟨cache_exactly_once.1 au0 (1/10) 5, ?_⟩
  cases hE : preprocessOp sampleDisplay [5, 6] with
  | error s =>
      have hne : (preprocessOp sampleDisplay [5, 6]).toOption ≠ none := by decide
      rw [hE] at hne
      simp [Except.toOption] at hne
  | ok d1 =>
      have h := cache_exactly_once.2.2.2 sampleDisplay [5, 6] d1 hE
      rw [show preprocessLogLen sampleDisplay [5, 6] = d1.soundSt.synthLog.length by
        unfold preprocessLogLen
        rw [hE]]
      simpa using h

/-- C7 counterexample: `preprocess([5, 5])` on a fresh session runs the
synthesizer TWICE for the single distinct key 5 -- "exactly once per
distinct key across all cache-population paths" fails on the bulk path. -/
theorem cache_exactly_once_cex :
    preprocessLogLen sampleDisplay [5, 5] = 2 ∧ (2 : ℕ) ≠ 1 ∧
    (preprocessOp sampleDisplay [5, 5]).toOption.map
      (fun d1 => alistKeys d1.soundSt.table) = some [5] := by
  refine ⟨by decide, by decide, by decide⟩

/-- C8 (amended): `release` with a final snapshot (and final rendering
enabled) performs one unconditional, non-throttled render pass in which
every bar is drawn and, when sonification is on, every element's tone is
played -- but BOTH passes of `completeUpdate` visit the elements in
FORWARD order (`for e in array` twice); there is no backward pass. -/
theorem release_final_render (d : Display) (arr : List ℤ) (hold : Bool)
    (now : ℚ) (h2 : d.screenOk = true) (h3 : d.dictDeleted = false)
    (hne : arr ≠ []) :
    ∃ d2 eff cu, releaseOp d (some arr) true hold now = Except.ok (d2, eff) ∧
      eff.cu = some cu ∧ eff.didFinalRender = true ∧
      cu.greenBlits.map Prod.fst = arr ∧
      cu.whiteBlits.map Prod.fst = arr ∧
      cu.sounds = (if d.sonification then arr else []) := by
  obtain ⟨d2c, cu, hcu, hg, hw, hs⟩ := completeUpdateOp_spec d arr hne
  unfold releaseOp
  rw [h2, h3]
  simp only [eq_self_iff_true, and_self, not_true, if_false]
  rw [hcu]
  dsimp only [Except.map]
  cases hold
  · exact ⟨d2c, _, cu, rfl, rfl, rfl, hg, hw, hs⟩
  · exact ⟨_, _, cu, rfl, rfl, rfl, hg, hw, hs⟩

/-- C8 witness: releasing the sample display (sonification on) with final
snapshot `[1, 2]` plays exactly the tones `[1, 2]`. -/
theorem release_final_render_witness :
    (releaseOp sampleDisplay (some [1, 2]) true true 0).toOption.map
      (fun p => p.2.cu.map CUEffects.sounds) = some (some [1, 2]) := by
  obtain ⟨d2, eff, cu, hok, hcu, hfr, hg, hw, hs⟩ :=
    release_final_render sampleDisplay [1, 2] true 0 rfl rfl (by decide)
  rw [hok]
  simp only [Except.toOption, Option.map_some, hcu, Option.map]
  rw [hs]
  rfl

/-- C8 counterexample: the second pass of `completeUpdate` over `[1, 2]`
visits `[1, 2]` -- forward again, not the claimed backward order `[2, 1]`. -/
theorem release_final_render_cex :
    (completeUpdateOp sampleDisplay [1, 2]).toOption.map
      (fun p => p.2.whiteBlits.map Prod.fst) = some [1, 2] ∧
    ([1, 2] : List ℤ) ≠ [2, 1] := by
  refine ⟨by decide, by decide⟩

/-- C9: for nonnegative duration, sample rate and envelope times, the four
envelope window sample counts are each nonnegative, their sum never
exceeds the total sample count `N = int(duration * sample_rate)` (which
equals the number of generated grid samples), and sustain absorbs the
remaining budget -- floored at zero -- after attack, then decay, then
release are clamped. -/
theorem envelope_window_clamping (cutoff duration frequency attack decay
    sustain release sample_rate amplitude : ℚ)
    (hd : 0 ≤ duration) (hsr : 0 ≤ sample_rate) (ha : 0 ≤ attack)
    (hdc : 0 ≤ decay) (hr : 0 ≤ release) :
    0 ≤ (sinewaveTrace cutoff duration frequency attack decay sustain release
      sample_rate amplitude).attack_samples ∧
    0 ≤ (sinewaveTrace cutoff duration frequency attack decay sustain release
      sample_rate amplitude).decay_samples ∧
    0 ≤ (sinewaveTrace cutoff duration frequency attack decay sustain release
      sample_rate amplitude).sustain_samples ∧
    0 ≤ (sinewaveTrace cutoff duration frequency attack decay sustain release
      sample_rate amplitude).release_samples ∧
    (sinewaveTrace cutoff duration frequency attack decay sustain release
      sample_rate amplitude).attack_samples +
      (sinewaveTrace cutoff duration frequency attack decay sustain release
        sample_rate amplitude).decay_samples +
      (sinewaveTrace cutoff duration frequency attack decay sustain release
        sample_rate amplitude).sustain_samples +
      (sinewaveTrace cutoff duration frequency attack decay sustain release
        sample_rate amplitude).release_samples ≤
      (sinewaveTrace cutoff duration frequency attack decay sustain release
        sample_rate amplitude).num_samples ∧
    ((sinewaveTrace cutoff duration frequency attack decay sustain release
      sample_rate amplitude).t.length : ℤ) =
      (sinewaveTrace cutoff duration frequency attack decay sustain release
        sample_rate amplitude).num_samples ∧
    (sinewaveTrace cutoff duration frequency attack decay sustain release
      sample_rate amplitude).sustain_samples =
      max 0 ((sinewaveTrace cutoff duration frequency attack decay sustain release
          sample_rate amplitude).num_samples -
        (sinewaveTrace cutoff duration frequency attack decay sustain release
          sample_rate amplitude).attack_samples -
        (sinewaveTrace cutoff duration frequency attack decay sustain release
          sample_rate amplitude).decay_samples -
        min (pyTrunc (release * sample_rate))
          ((sinewaveTrace cutoff duration frequency attack decay sustain release
              sample_rate amplitude).num_samples -
            (sinewaveTrace cutoff duration frequency attack decay sustain release
              sample_rate amplitude).attack_samples -
            (sinewaveTrace cutoff duration frequency attack decay sustain release
              sample_rate amplitude).decay_samples)) := by
  have hN : 0 ≤ pyTrunc (duration * sample_rate) :=
    pyTrunc_nonneg (mul_nonneg hd hsr)
  have hA : 0 ≤ pyTrunc (attack * sample_rate) :=
    pyTrunc_nonneg (mul_nonneg ha hsr)
  have hD : 0 ≤ pyTrunc (decay * sample_rate) :=
    pyTrunc_nonneg (mul_nonneg hdc hsr)
  have hR : 0 ≤ pyTrunc (release * sample_rate) :=
    pyTrunc_nonneg (mul_nonneg hr hsr)
  rw [sinewaveTrace_t_length]
  unfold sinewaveTrace
  dsimp only
  rw [Int.toNat_of_nonneg hN]
  refine ⟨?_, ?_, ?_, ?_, ?_, rfl, ?_⟩ <;> omega

/-- C9 witness: the clamping invariant at a concrete envelope. -/
theorem envelope_window_clamping_witness :
    0 ≤ (sinewaveTrace 5000 (1/10) 440 (1/10) (1/5) (1/2) (1/10)
      10 32767).attack_samples ∧
    (sinewaveTrace 5000 (1/10) 440 (1/10) (1/5) (1/2) (1/10)
        10 32767).attack_samples +
      (sinewaveTrace 5000 (1/10) 440 (1/10) (1/5) (1/2) (1/10)
        10 32767).decay_samples +
      (sinewaveTrace 5000 (1/10) 440 (1/10) (1/5) (1/2) (1/10)
        10 32767).sustain_samples +
      (sinewaveTrace 5000 (1/10) 440 (1/10) (1/5) (1/2) (1/10)
        10 32767).release_samples ≤
      (sinewaveTrace 5000 (1/10) 440 (1/10) (1/5) (1/2) (1/10)
        10 32767).num_samples := by
  have h := envelope_window_clamping 5000 (1/10) 440 (1/10) (1/5) (1/2) (1/10)
    10 32767 (by norm_num) (by norm_num) (by norm_num) (by norm_num) (by norm_num)
  exact ⟨h.1, h.2.2.2.2.1⟩

/-- C10 (amended): `update`'s lazy cache-miss path invokes `sinewave` with
ONLY the sound duration and the value, so the synthesizer's built-in
defaults (attack 0.1, decay 0.2, sustain 0.5, release 0.1, sample rate
44100, amplitude 32767) replace the constructor configuration, while
`preprocess` passes the configured values; a configuration difference that
changes a derived quantity changes the bytes (e.g. a different sample rate
changes the buffer length), but NOT every configuration difference does --
one below sample quantization leaves the whole synthesis trace, hence the
PCM bytes, identical (see the counterexample). -/
theorem lazy_synthesis_defaults :
    (∀ au (sd : ℚ) (e : ℤ), e ∉ alistKeys au.table →
      (lazyGet au sd e).1 =
        { duration := sd, frequency := (e : ℚ), attack := 1/10, decay := 1/5,
          sustain := 1/2, releaseT := 1/10, sample_rate := 44100,
          amplitude := 32767 }) ∧
    (∀ d (e : ℤ) d1, preprocessOp d [e] = Except.ok d1 →
      alistLookup e d1.soundSt.table = some
        { duration := d.soundDuration, frequency := (e : ℚ),
          attack := d.attack, decay := d.decay, sustain := d.sustain,
          releaseT := d.releaseTime, sample_rate := d.sampleRate,
          amplitude := d.amplitude }) ∧
    (sinewaveTrace 5000 (1/10) 100 (1/10) (1/5) (1/2) (1/10) 22050 32767).t.length ≠
      (sinewaveTrace 5000 (1/10) 100 (1/10) (1/5) (1/2) (1/10) 44100 32767).t.length := by
  refine ⟨?_, ?_, ?_⟩
  · intro au sd e he
    unfold lazyGet
    rw [(alistLookup_eq_none_iff _ _).mpr he]
  · intro d e d1 hok
    unfold preprocessOp at hok
    split_ifs at hok with hd
    rw [Except.ok.injEq] at hok
    subst hok
    dsimp only [List.foldl]
    exact alistLookup_dictInsert_self _ _ _
  · rw [sinewaveTrace_t_length, sinewaveTrace_t_length]
    decide

/-- C10 witness: a concrete lazy miss (at the default 0.1s sound
duration, 4410 samples, well past the filter's padding length) stores the
defaults-substituted tuple, and a concrete preprocess on the reconfigured
display stores the configured tuple. -/
theorem lazy_synthesis_defaults_witness :
    (lazyGet au0 (1/10) 5).1 =
      { duration := 1/10, frequency := 5, attack := 1/10, decay := 1/5,
        sustain := 1/2, releaseT := 1/10, sample_rate := 44100,
        amplitude := 32767 } ∧
    (preprocessOp configuredDisplay [100]).toOption.map
      (fun d1 => alistLookup 100 d1.soundSt.table) =
      some (some preArgsElevenHundredths) := by
  constructor
  · have h := lazy_synthesis_defaults.1 au0 (1/10) 5 (by decide)
    rw [h]
    decide
  · decide

/-- C10 counterexample: configured attack 0.11 (≠ default 0.1) with
soundDuration 7/44100 -- SEVEN samples, strictly more than `filtfilt`'s
padding length 6, so both the lazy path and `preprocess` really run the
filter and cache a 14-byte buffer.  The lazy args and the preprocess args
differ, yet every derived quantity coincides
(`attack_samples = min(int(attack * 44100), 7) = 7` either way), so the
two synthesis traces -- hence the cached PCM byte buffers -- are
IDENTICAL: the bytes do not differ "whenever the configuration differs
from the defaults". -/
theorem lazy_synthesis_defaults_cex :
    (lazyGet au0 (7/44100) 100).1 ≠ preArgsElevenHundredths ∧
    traceOfArgs 5000 ((lazyGet au0 (7/44100) 100).1) =
      traceOfArgs 5000 preArgsElevenHundredths ∧
    6 < (traceOfArgs 5000 preArgsElevenHundredths).t.length ∧
    sinewaveNumBytes 5000 (7/44100) 100 (11/100) (1/5) (1/2) (1/10)
      44100 32767 = Except.ok 14 := by
  refine ⟨by decide, by decide, by decide, by decide⟩

end
